import Mathlib

/-!
Verification of the Exodus NES text inserter (`src/inserter.py`) against its
natural-language specification.

The embedding below follows the Python source line by line:
strings are lists of characters, byte arrays are lists of naturals, Python
integers are `Int`.  On integers, Python's arithmetic right shift `x >> 8` is
floor division by 256 (`Int.fdiv`), and `x & 0xFF` is the nonnegative
remainder `Int.emod x 256`; these identities are used in the translation of
the bit manipulations in `encodeTextsAndPointers`.
-/

namespace Inserter

/-- UTF-8 encoding of one character, as Python's `str.encode('utf-8')` emits
it.  A Lean `Char` is a Unicode scalar value, so every character is encodable
and the `errors='ignore'` policy of the source never drops anything here. -/
def utf8EncodeChar (c : Char) : List Nat :=
  let v := c.toNat
  if v < 128 then [v]
  else if v < 2048 then [192 + v / 64, 128 + v % 64]
  else if v < 65536 then [224 + v / 4096, 128 + v / 64 % 64, 128 + v % 64]
  else [240 + v / 262144, 128 + v / 4096 % 64, 128 + v / 64 % 64, 128 + v % 64]

/-- UTF-8 encoding of a string, represented as its list of characters. -/
def utf8Encode (l : List Char) : List Nat := (l.map utf8EncodeChar).flatten

/-- The fixed `replacement_dict` of `characterReplacer` (lines 42-53),
as a function: `dict.get(char, char)` returns the mapped character when
`char` is one of the ten keys and `char` itself otherwise. -/
def replaceChar (c : Char) : Char :=
  if c = '?' then '#'
  else if c = '¿' then '$'
  else if c = 'á' then '%'
  else if c = 'é' then 'K'
  else if c = 'í' then 'W'
  else if c = 'ó' then 'X'
  else if c = 'ú' then 'w'
  else if c = 'ñ' then ')'
  else if c = 'Á' then Char.ofNat 39
  else if c = 'É' then '('
  else c

/-- The ten key/value pairs of `replacement_dict`, for stating table
properties.  `Char.ofNat 39` is the apostrophe character. -/
def replacementPairs : List (Char × Char) :=
  [('?', '#'), ('¿', '$'), ('á', '%'), ('é', 'K'), ('í', 'W'),
   ('ó', 'X'), ('ú', 'w'), ('ñ', ')'), ('Á', Char.ofNat 39), ('É', '(')]

/-- `characterReplacer` (lines 32-61): applies `replacement_dict.get(char, char)`
to every character of every line. -/
def characterReplacer (textList : List (List Char)) : List (List Char) :=
  textList.map (fun text => text.map replaceChar)

/-- Loop state of `encodeTextsAndPointers`: the bytearray `encodedData`, the
counter `totalBytes`, and the Python list `pointers`. -/
structure EncState where
  encodedData : List Nat
  totalBytes : Nat
  pointers : List Int
  deriving DecidableEq

/-- One iteration of the `for text in texts` loop (lines 82-94):
`textContent = text[:-1]`, `breaker = text[-1:]`, both are UTF-8 encoded and
appended to `encodedData`, `totalBytes` grows by their byte lengths, and the
pointer `textStartOffset + totalBytes` is appended. -/
def encStep (textStartOffset : Int) (st : EncState) (text : List Char) : EncState :=
  let textContent := text.dropLast
  let breaker := text.drop (text.length - 1)
  let encC := utf8Encode textContent
  let encB := utf8Encode breaker
  let totalBytes := st.totalBytes + (encC.length + encB.length)
  { encodedData := st.encodedData ++ (encC ++ encB)
    totalBytes := totalBytes
    pointers := st.pointers ++ [textStartOffset + (totalBytes : Int)] }

/-- Line 101: `((ptr >> 8) & 0xFF) | ((ptr & 0xFF) << 8)`.  On Python ints,
`ptr >> 8` is `Int.fdiv ptr 256` and `& 0xFF` is `Int.emod · 256`; the two
operands of `|` occupy disjoint byte positions (the first lies in `[0, 256)`,
the second is a multiple of 256), so the bitwise or is addition. -/
def swapBytes (ptr : Int) : Int :=
  (Int.fdiv ptr 256).emod 256 + ptr.emod 256 * 256

/-- Lines 105-107: append `(ptr >> 8) & 0xFF` then `ptr & 0xFF` to the
pointer bytearray (bytes are naturals). -/
def pointerBytes (ptr : Int) : List Nat :=
  [((Int.fdiv ptr 256).emod 256).toNat, (ptr.emod 256).toNat]

/-- `encodeTextsAndPointers` (lines 63-109): returns the encoded text bytes,
the total byte count, and the pointer table bytes.  The pointer list is
seeded with `textStartOffset`, one pointer is appended per record, the final
one is popped, `pointersDistance` is subtracted, the bytes of each pointer
are swapped, and each swapped value is emitted most-significant byte first. -/
def encodeTextsAndPointers (texts : List (List Char))
    (textStartOffset pointersDistance : Int) : List Nat × Nat × List Nat :=
  let st := texts.foldl (encStep textStartOffset) ⟨[], 0, [textStartOffset]⟩
  let pointers := st.pointers.dropLast
  let pointers := pointers.map (fun ptr => ptr - pointersDistance)
  let pointers := pointers.map swapBytes
  let pointersData := (pointers.map pointerBytes).flatten
  (st.encodedData, st.totalBytes, pointersData)

/-- `TEXTSTARTOFFSET` (line 134). -/
def TEXTSTARTOFFSET : Int := 0x1007B

/-- `POINTERSSTARTOFFSET` (line 135). -/
def POINTERSSTARTOFFSET : Nat := 0x144F4

/-- `POINTERSDISTANCE` (line 136). -/
def POINTERSDISTANCE : Int := 0x8010

/-- Outcome of the `__main__` block after the input file has been parsed:
either the capacity check fails (lines 148-152), carrying the reported
excess and performing no write, or the run succeeds, performing the two
writes (lines 158-161) and reporting the free byte count (line 155). -/
inductive MainResult where
  | capacityExceeded (excess : Int)
  | success (writes : List (Nat × List Nat)) (freeBytes : Int)
  deriving DecidableEq

/-- The `__main__` block (lines 139-166) after `readTextFile`: `lengthText`
is the declared capacity from the first line, `texts` the remaining lines.
Characters are replaced, the texts are encoded, and the capacity check
decides between the error exit and the two ROM writes. -/
def runMain (lengthText : Int) (texts : List (List Char)) : MainResult :=
  let replacedText := characterReplacer texts
  let r := encodeTextsAndPointers replacedText TEXTSTARTOFFSET POINTERSDISTANCE
  let encodedData := r.1
  let pointersList := r.2.2
  if (encodedData.length : Int) > lengthText then
    MainResult.capacityExceeded ((encodedData.length : Int) - lengthText)
  else
    MainResult.success
      [(0x1007B, encodedData), (POINTERSSTARTOFFSET, pointersList)]
      (lengthText - (encodedData.length : Int))

/-- The bytes one record contributes to the encoded block:
`encode(text[:-1]) ++ encode(text[-1:])`. -/
def encodeLine (l : List Char) : List Nat :=
  utf8Encode l.dropLast ++ utf8Encode (l.drop (l.length - 1))

/-- The start offset of record `i`: the base offset plus the encoded byte
lengths of all records before it. -/
def recordStart (base : Int) (texts : List (List Char)) (i : Nat) : Int :=
  base + (((texts.take i).map (fun l => (encodeLine l).length)).sum : Int)

/-- The encoded block a run of the `__main__` block produces for the given
text lines (after character replacement, with the program's constants). -/
def mainEncodedData (texts : List (List Char)) : List Nat :=
  (encodeTextsAndPointers (characterReplacer texts)
    TEXTSTARTOFFSET POINTERSDISTANCE).1

/-- The pointer table a run of the `__main__` block produces. -/
def mainPointersData (texts : List (List Char)) : List Nat :=
  (encodeTextsAndPointers (characterReplacer texts)
    TEXTSTARTOFFSET POINTERSDISTANCE).2.2

/-- The two ROM writes a successful run performs: the encoded block at the
text offset, the pointer table at the pointer-table offset. -/
def mainWrites (texts : List (List Char)) : List (Nat × List Nat) :=
  [(0x1007B, mainEncodedData texts), (POINTERSSTARTOFFSET, mainPointersData texts)]

/-- Modelled from the spec: "a single little-endian two-byte emit of the
corrected value", masking each byte to 0xFF — the low byte
`corrected & 0xFF` first, then `(corrected >> 8) & 0xFF`.  Stated for
comparison with the source's swap-then-big-endian emission. -/
def littleEndianEmit (corrected : Int) : List Nat :=
  [(corrected.emod 256).toNat, ((Int.fdiv corrected 256).emod 256).toNat]

/-- The whole encoded block: each record's bytes, concatenated in order. -/
def blockOf (texts : List (List Char)) : List Nat :=
  (texts.map encodeLine).flatten

/-- The raw pointers appended by the loop when it starts with byte counter
`t`: after each record, `base + (counter so far)`. -/
def rawPointers (base : Int) (t : Nat) : List (List Char) → List Int
  | [] => []
  | l :: ls =>
      (base + ((t + (encodeLine l).length : Nat) : Int)) ::
        rawPointers base (t + (encodeLine l).length) ls

theorem utf8Encode_append (a b : List Char) :
    utf8Encode (a ++ b) = utf8Encode a ++ utf8Encode b := by
  simp [utf8Encode]

theorem dropLast_append_drop (l : List Char) :
    l.dropLast ++ l.drop (l.length - 1) = l := by
  rw [List.dropLast_eq_take, List.take_append_drop]

theorem encodeLine_eq_utf8Encode (l : List Char) :
    encodeLine l = utf8Encode l := by
  rw [encodeLine, ← utf8Encode_append, dropLast_append_drop]

theorem foldl_encStep (base : Int) (texts : List (List Char))
    (d : List Nat) (t : Nat) (ps : List Int) :
    texts.foldl (encStep base) ⟨d, t, ps⟩ =
      ⟨d ++ blockOf texts, t + (blockOf texts).length,
        ps ++ rawPointers base t texts⟩ := by
  induction texts generalizing d t ps with
  | nil => simp [blockOf, rawPointers]
  | cons l ls ih =>
      simp only [List.foldl_cons, encStep, ih, blockOf, rawPointers,
        List.map_cons, List.flatten_cons, encodeLine, EncState.mk.injEq,
        List.length_append]
      refine ⟨by simp, by omega, by simp⟩

theorem encodeTextsAndPointers_eq (texts : List (List Char)) (base dist : Int) :
    encodeTextsAndPointers texts base dist =
      (blockOf texts, (blockOf texts).length,
        ((((base :: rawPointers base 0 texts).dropLast.map
            (fun ptr => ptr - dist)).map swapBytes).map pointerBytes).flatten) := by
  have h := foldl_encStep base texts [] 0 [base]
  simp only [encodeTextsAndPointers, h, List.nil_append, Nat.zero_add,
    List.singleton_append]

theorem rawPointers_length (base : Int) (t : Nat) (texts : List (List Char)) :
    (rawPointers base t texts).length = texts.length := by
  induction texts generalizing t with
  | nil => rfl
  | cons l ls ih => simp [rawPointers, ih]

theorem swapBytes_eq (p : Int) :
    swapBytes p = p / 256 % 256 + p % 256 * 256 := by
  rw [swapBytes, Int.fdiv_eq_ediv _ (by norm_num)]; rfl

theorem pointerBytes_eq (p : Int) :
    pointerBytes p = [(p / 256 % 256).toNat, (p % 256).toNat] := by
  rw [pointerBytes, Int.fdiv_eq_ediv _ (by norm_num)]; rfl

theorem bytes_of_low_high (hi lo : Int) (h1 : 0 ≤ hi) (h2 : hi < 256)
    (h3 : 0 ≤ lo) (h4 : lo < 256) :
    (hi + lo * 256) / 256 % 256 = lo ∧ (hi + lo * 256) % 256 = hi := by
  omega

theorem pointerBytes_swapBytes (p : Int) :
    pointerBytes (swapBytes p) = [(p % 256).toNat, (p / 256 % 256).toNat] := by
  have h := bytes_of_low_high (p / 256 % 256) (p % 256)
    (by omega) (by omega) (by omega) (by omega)
  rw [pointerBytes_eq, swapBytes_eq, h.1, h.2]

theorem swapBytes_swapBytes (p : Int) :
    swapBytes (swapBytes p) = p % 65536 := by
  have h := bytes_of_low_high (p / 256 % 256) (p % 256)
    (by omega) (by omega) (by omega) (by omega)
  rw [swapBytes_eq p, swapBytes_eq, h.1, h.2]
  omega

theorem rawPointers_getElem? (base : Int) (texts : List (List Char)) :
    ∀ (t : Nat) (j : Nat), j < texts.length →
      (rawPointers base t texts)[j]? =
        some (base + (t : Int) +
          (((texts.take (j + 1)).map (fun l => (encodeLine l).length)).sum : Int)) := by
  induction texts with
  | nil => intro t j h; simp at h
  | cons l ls ih =>
      intro t j h
      cases j with
      | zero =>
          simp only [rawPointers, List.getElem?_cons_zero, List.take_succ_cons,
            List.take_zero, List.map_cons, List.map_nil, List.sum_cons,
            List.sum_nil, Option.some.injEq]
          push_cast
          ring
      | succ j' =>
          have h' : j' < ls.length := by simpa using h
          simp only [rawPointers, List.getElem?_cons_succ, ih _ j' h',
            List.take_succ_cons, List.map_cons, List.sum_cons, Option.some.injEq]
          push_cast
          ring

theorem pointerList_getElem? (base : Int) (texts : List (List Char))
    (i : Nat) (h : i < texts.length) :
    ((base :: rawPointers base 0 texts).dropLast)[i]? =
      some (recordStart base texts i) := by
  rw [List.getElem?_dropLast]
  have hlen : (base :: rawPointers base 0 texts).length = texts.length + 1 := by
    simp [rawPointers_length]
  rw [if_pos (by omega)]
  cases i with
  | zero =>
      simp [recordStart]
  | succ j =>
      rw [List.getElem?_cons_succ, rawPointers_getElem? base texts 0 j (by omega)]
      simp [recordStart]

theorem flatten_pointerBytes_length (ps : List Int) :
    ((ps.map pointerBytes).flatten).length = 2 * ps.length := by
  induction ps with
  | nil => rfl
  | cons p rest ih => simp [pointerBytes, ih]; omega

theorem flatten_pointerBytes_getElem? (ps : List Int) :
    ∀ (i : Nat), i < ps.length →
      ∀ (p : Int), ps[i]? = some p →
        ((ps.map pointerBytes).flatten)[2 * i]? =
            some (((p / 256) % 256).toNat) ∧
          ((ps.map pointerBytes).flatten)[2 * i + 1]? = some ((p % 256).toNat) := by
  induction ps with
  | nil => intro i h; simp at h
  | cons q rest ih =>
      intro i h p hp
      cases i with
      | zero =>
          simp only [List.getElem?_cons_zero, Option.some.injEq] at hp
          subst hp
          simp [pointerBytes_eq]
      | succ j =>
          have h' : j < rest.length := by simpa using h
          rw [List.getElem?_cons_succ] at hp
          have step := ih j h' p hp
          have e1 : 2 * (j + 1) = 2 * j + 1 + 1 := by ring
          have e2 : 2 * (j + 1) + 1 = (2 * j + 1) + 1 + 1 := by ring
          simp only [List.map_cons, List.flatten_cons, pointerBytes_eq,
            List.cons_append, e1, e2, List.getElem?_cons_succ]
          simpa [pointerBytes_eq] using step

theorem blockOf_append (a b : List (List Char)) :
    blockOf (a ++ b) = blockOf a ++ blockOf b := by
  simp [blockOf]

theorem pointersData_length (texts : List (List Char)) (base dist : Int) :
    (encodeTextsAndPointers texts base dist).2.2.length = 2 * texts.length := by
  rw [encodeTextsAndPointers_eq, flatten_pointerBytes_length]
  simp only [List.length_map, List.length_dropLast, List.length_cons,
    rawPointers_length]
  omega

/-- C1 counterexample: for the two records "A." and "B." the pointer table
holds 4 bytes, i.e. two two-byte pointers — not `2 - 1 = 1` pointer
(2 bytes) as the claim states. -/
theorem c1_counterexample :
    (encodeTextsAndPointers [['A', '.'], ['B', '.']] 0 0).2.2.length ≠
      2 * ([['A', '.'], ['B', '.']].length - 1) := by
  decide

/-- C1 amended: the pointer table built by `encodeTextsAndPointers` holds
exactly one two-byte pointer per record — its byte length is `2 * N` for
`N` records (so `N` pointers, not `N - 1`; no record lacks a pointer). -/
theorem c1_pointer_count (texts : List (List Char)) (base dist : Int) :
    (encodeTextsAndPointers texts base dist).2.2.length = 2 * texts.length :=
  pointersData_length texts base dist

/-- C2 counterexample: with the single record "A.", base offset 0 and
distance 1, pointer 0 is corrected to `-1` and stored as bytes
`[255, 255]`; decoding those bytes (reverse the byte swap, add the
distance) yields 65536, not the record start offset 0 claimed. -/
theorem c2_counterexample :
    (encodeTextsAndPointers [['A', '.']] 0 1).2.2 = [255, 255] ∧
      swapBytes ((255 : Int) * 256 + 255) + 1 ≠ recordStart 0 [['A', '.']] 0 := by
  refine ⟨by decide, by decide⟩

/-- C2 amended: whenever the corrected value
`recordStart base texts i - dist` lies within `0..0xFFFF`, the two bytes
stored for pointer `i` decode (reverse the byte swap, add the distance
constant) to `base` plus the sum of the encoded byte lengths of all
records before record `i`; outside that range only the value modulo
`2 ^ 16` is recoverable. -/
theorem c2_pointer_decode (texts : List (List Char)) (base dist : Int) (i : Nat)
    (hi : i < texts.length)
    (hlo : 0 ≤ recordStart base texts i - dist)
    (hhi : recordStart base texts i - dist ≤ 65535) :
    ∃ b0 b1 : Nat,
      (encodeTextsAndPointers texts base dist).2.2[2 * i]? = some b0 ∧
      (encodeTextsAndPointers texts base dist).2.2[2 * i + 1]? = some b1 ∧
      swapBytes ((b0 : Int) * 256 + (b1 : Int)) + dist = recordStart base texts i := by
  rw [encodeTextsAndPointers_eq]
  set c := recordStart base texts i - dist with hc
  have hmap : (((base :: rawPointers base 0 texts).dropLast.map
      (fun ptr => ptr - dist)).map swapBytes)[i]? = some (swapBytes c) := by
    rw [List.getElem?_map, List.getElem?_map, pointerList_getElem? base texts i hi]
    simp [hc]
  have hlen : (((base :: rawPointers base 0 texts).dropLast.map
      (fun ptr => ptr - dist)).map swapBytes).length = texts.length := by
    simp [rawPointers_length]
  have hb := flatten_pointerBytes_getElem? _ i (by rw [hlen]; exact hi) _ hmap
  refine ⟨_, _, hb.1, hb.2, ?_⟩
  have h := bytes_of_low_high (c / 256 % 256) (c % 256)
    (by omega) (by omega) (by omega) (by omega)
  rw [swapBytes_eq c, h.1, h.2]
  have e1 : ((c % 256).toNat : Int) = c % 256 := Int.toNat_of_nonneg (by omega)
  have e2 : ((c / 256 % 256).toNat : Int) = c / 256 % 256 :=
    Int.toNat_of_nonneg (by omega)
  rw [e1, e2]
  have e3 : c % 256 * 256 + c / 256 % 256 = swapBytes c := by
    rw [swapBytes_eq]; ring
  rw [e3, swapBytes_swapBytes]
  omega

/-- C2 witness: for the records "A." and "B." with the program's base
offset and distance constant, pointer 1 decodes to the start of record 1. -/
theorem c2_pointer_decode_witness :
    ∃ b0 b1 : Nat,
      (encodeTextsAndPointers [['A', '.'], ['B', '.']] 0x1007B 0x8010).2.2[2 * 1]? =
          some b0 ∧
        (encodeTextsAndPointers [['A', '.'], ['B', '.']] 0x1007B 0x8010).2.2[2 * 1 + 1]? =
          some b1 ∧
        swapBytes ((b0 : Int) * 256 + (b1 : Int)) + 0x8010 =
          recordStart 0x1007B [['A', '.'], ['B', '.']] 1 :=
  c2_pointer_decode [['A', '.'], ['B', '.']] 0x1007B 0x8010 1
    (by decide) (by decide) (by decide)

/-- C3: the run reports the capacity error if and only if the encoded block
is strictly longer than the declared capacity; on error the reported excess
is `length - capacity` and no write is performed (the error result carries
none); when the length equals the capacity the run succeeds reporting zero
free bytes; and every successful run performs exactly the two writes and
reports `capacity - length` free bytes. -/
theorem c3_capacity_check (lengthText : Int) (texts : List (List Char)) :
    ((∃ e, runMain lengthText texts = MainResult.capacityExceeded e) ↔
        ((mainEncodedData texts).length : Int) > lengthText) ∧
      (∀ e, runMain lengthText texts = MainResult.capacityExceeded e →
        e = ((mainEncodedData texts).length : Int) - lengthText) ∧
      (((mainEncodedData texts).length : Int) = lengthText →
        runMain lengthText texts = MainResult.success (mainWrites texts) 0) ∧
      (∀ w f, runMain lengthText texts = MainResult.success w f →
        f = lengthText - ((mainEncodedData texts).length : Int) ∧
          w = mainWrites texts) := by
  by_cases h : ((mainEncodedData texts).length : Int) > lengthText
  · have hrun : runMain lengthText texts =
        MainResult.capacityExceeded
          (((mainEncodedData texts).length : Int) - lengthText) := by
      simp only [runMain, mainEncodedData] at h ⊢
      rw [if_pos h]
    refine ⟨⟨fun _ => h, fun _ => ⟨_, hrun⟩⟩, ?_, ?_, ?_⟩
    · intro e he
      rw [hrun] at he
      exact (MainResult.capacityExceeded.injEq _ _).mp he.symm
    · intro heq; omega
    · intro w f hwf
      rw [hrun] at hwf
      exact absurd hwf (by simp)
  · have hrun : runMain lengthText texts = MainResult.success
        (mainWrites texts) (lengthText - ((mainEncodedData texts).length : Int)) := by
      simp only [runMain, mainWrites, mainEncodedData, mainPointersData] at h ⊢
      rw [if_neg h]
    refine ⟨⟨?_, fun hgt => absurd hgt h⟩, ?_, ?_, ?_⟩
    · rintro ⟨e, he⟩
      rw [hrun] at he
      exact absurd he (by simp)
    · intro e he
      rw [hrun] at he
      exact absurd he (by simp)
    · intro heq
      rw [hrun, heq]
      norm_num
    · intro w f hwf
      rw [hrun] at hwf
      have := (MainResult.success.injEq _ _ _ _).mp hwf.symm
      exact ⟨this.2, this.1⟩

/-- C3 witness: with capacity exactly equal to the 7-byte encoded length of
the records "Hi!", "Bye.", the run succeeds with zero free bytes. -/
theorem c3_capacity_check_witness :
    runMain 7 [['H', 'i', '!'], ['B', 'y', 'e', '.']] =
      MainResult.success (mainWrites [['H', 'i', '!'], ['B', 'y', 'e', '.']]) 0 :=
  (c3_capacity_check 7 [['H', 'i', '!'], ['B', 'y', 'e', '.']]).2.2.1 (by decide)

/-- C4 counterexample: at the corrected value `0x12345`, which exceeds 16
bits, the two-step swap-then-big-endian emission produces exactly the bytes
of the single per-byte-masked little-endian emit — so the claimed
non-equivalence fails. -/
theorem c4_counterexample :
    pointerBytes (swapBytes 0x12345) = littleEndianEmit 0x12345 ∧
      (0x12345 : Int) > 0xFFFF := by
  refine ⟨by decide, by decide⟩

/-- C4 amended: for every corrected pointer value — also those exceeding 16
bits — the two-step emission (swap the two low bytes, then serialize the
swapped value most-significant byte first) equals a single little-endian
two-byte emit of the corrected value with each byte masked to 0xFF. -/
theorem c4_two_step_emit (corrected : Int) :
    pointerBytes (swapBytes corrected) = littleEndianEmit corrected := by
  rw [pointerBytes_swapBytes, littleEndianEmit,
    Int.fdiv_eq_ediv _ (by norm_num)]
  rfl

/-- C5: for every corrected pointer value outside `0..0xFFFF` (negative
values included, as produced when `base + offset < distance`), the emitted
byte pair is the one for the value reduced modulo `2 ^ 16`, and the two
bytes encode exactly that reduced value; the emission is total, so no error
is ever raised. -/
theorem c5_truncation (corrected : Int)
    (_h : corrected < 0 ∨ 65535 < corrected) :
    pointerBytes (swapBytes corrected) =
        pointerBytes (swapBytes (corrected % 65536)) ∧
      ∃ b0 b1 : Nat, pointerBytes (swapBytes corrected) = [b0, b1] ∧
        (b0 : Int) + 256 * (b1 : Int) = corrected % 65536 := by
  refine ⟨?_, ⟨_, _, pointerBytes_swapBytes corrected, ?_⟩⟩
  · rw [pointerBytes_swapBytes, pointerBytes_swapBytes]
    have e1 : corrected % 65536 % 256 = corrected % 256 := by omega
    have e2 : corrected % 65536 / 256 % 256 = corrected / 256 % 256 := by omega
    rw [e1, e2]
  · have h1 : ((corrected % 256).toNat : Int) = corrected % 256 :=
      Int.toNat_of_nonneg (by omega)
    have h2 : ((corrected / 256 % 256).toNat : Int) = corrected / 256 % 256 :=
      Int.toNat_of_nonneg (by omega)
    rw [h1, h2]
    omega

/-- C5 witness: the corrected value `-1` (below 0) is emitted as the bytes
for `-1 % 65536 = 65535`. -/
theorem c5_truncation_witness :
    pointerBytes (swapBytes (-1)) = pointerBytes (swapBytes ((-1) % 65536)) ∧
      ∃ b0 b1 : Nat, pointerBytes (swapBytes (-1)) = [b0, b1] ∧
        (b0 : Int) + 256 * (b1 : Int) = (-1) % 65536 :=
  c5_truncation (-1) (Or.inl (by decide))

/-- C6 counterexample: an input whose first record is empty is not rejected
with a validation error: `encodeTextsAndPointers` encodes it normally — the
empty record contributes no byte, and the pointer table still carries a
pointer for it (the bytes `[5, 0]` are the swapped pointer 5, repeated for
both records). -/
theorem c6_counterexample :
    encodeTextsAndPointers [[], ['A', '.']] 5 0 = ([65, 46], 2, [5, 0, 5, 0]) := by
  decide

/-- C6 amended: an empty record is accepted rather than rejected: it leaves
the encoded block and the total byte count unchanged, and the pointer table
still holds one two-byte pointer for every record, the empty one
included. -/
theorem c6_empty_record_accepted (pre post : List (List Char)) (base dist : Int) :
    (encodeTextsAndPointers (pre ++ [[]] ++ post) base dist).1 =
        (encodeTextsAndPointers (pre ++ post) base dist).1 ∧
      (encodeTextsAndPointers (pre ++ [[]] ++ post) base dist).2.1 =
        (encodeTextsAndPointers (pre ++ post) base dist).2.1 ∧
      (encodeTextsAndPointers (pre ++ [[]] ++ post) base dist).2.2.length =
        2 * (pre.length + post.length + 1) := by
  have hblock : blockOf (pre ++ [[]] ++ post) = blockOf (pre ++ post) := by
    rw [blockOf_append, blockOf_append, blockOf_append]
    simp [blockOf, encodeLine, utf8Encode]
  refine ⟨?_, ?_, ?_⟩
  · rw [encodeTextsAndPointers_eq, encodeTextsAndPointers_eq, hblock]
  · rw [encodeTextsAndPointers_eq, encodeTextsAndPointers_eq, hblock]
  · rw [pointersData_length]
    simp only [List.length_append, List.length_cons, List.length_nil]
    omega

/-- C7 counterexample: for capacity 100 and the records "Hi!", "Bye." the
encoded block is the 7 UTF-8 bytes of "Hi!Bye." — not 8 —, the pointer
table holds two two-byte pointers — not the single pointer `[base_offset]`
— and the run succeeds with 93 free bytes — not 92. -/
theorem c7_counterexample :
    (encodeTextsAndPointers (characterReplacer [['H', 'i', '!'], ['B', 'y', 'e', '.']])
        TEXTSTARTOFFSET POINTERSDISTANCE).1.length = 7 ∧
      (encodeTextsAndPointers (characterReplacer [['H', 'i', '!'], ['B', 'y', 'e', '.']])
        TEXTSTARTOFFSET POINTERSDISTANCE).2.2.length = 4 ∧
      runMain 100 [['H', 'i', '!'], ['B', 'y', 'e', '.']] = MainResult.success
        [(0x1007B, [72, 105, 33, 66, 121, 101, 46]),
         (POINTERSSTARTOFFSET, [107, 128, 110, 128])] 93 := by
  refine ⟨by decide, by decide, by decide⟩

/-- C7 amended: for capacity 100 and the records "Hi!", "Bye." (none of
whose characters is in the substitution table), the encoded block is the
UTF-8 encoding of "Hi!Bye." (7 bytes), the pointer table holds the two
pointers for `base_offset` and `base_offset + 3`, and the run succeeds with
93 free bytes. -/
theorem c7_scenario :
    encodeTextsAndPointers (characterReplacer [['H', 'i', '!'], ['B', 'y', 'e', '.']])
        TEXTSTARTOFFSET POINTERSDISTANCE =
      (utf8Encode ['H', 'i', '!', 'B', 'y', 'e', '.'], 7,
        pointerBytes (swapBytes (TEXTSTARTOFFSET - POINTERSDISTANCE)) ++
          pointerBytes (swapBytes (TEXTSTARTOFFSET + 3 - POINTERSDISTANCE))) ∧
      runMain 100 [['H', 'i', '!'], ['B', 'y', 'e', '.']] = MainResult.success
        [(0x1007B, utf8Encode ['H', 'i', '!', 'B', 'y', 'e', '.']),
         (POINTERSSTARTOFFSET,
           pointerBytes (swapBytes (TEXTSTARTOFFSET - POINTERSDISTANCE)) ++
             pointerBytes (swapBytes (TEXTSTARTOFFSET + 3 - POINTERSDISTANCE)))] 93 := by
  refine ⟨by decide, by decide⟩

/-- C8: every character in the fixed substitution table is replaced by its
declared replacement, whose UTF-8 encoding is that single byte; every
character absent from the table passes through unchanged into its default
UTF-8 encoding; and the substitution runs on the text before UTF-8
encoding: the encoded block of the replaced texts is the UTF-8 encoding of
the character-wise replaced lines. -/
theorem c8_substitution (texts : List (List Char)) (base dist : Int) (c r : Char) :
    ((c, r) ∈ replacementPairs →
        replaceChar c = r ∧ utf8EncodeChar r = [r.toNat]) ∧
      (c ∉ replacementPairs.map Prod.fst → replaceChar c = c) ∧
      (encodeTextsAndPointers (characterReplacer texts) base dist).1 =
        (texts.map (fun l => utf8Encode (l.map replaceChar))).flatten := by
  refine ⟨?_, ?_, ?_⟩
  · intro h
    have hall : ∀ p ∈ replacementPairs,
        replaceChar p.1 = p.2 ∧ utf8EncodeChar p.2 = [p.2.toNat] := by decide
    exact hall (c, r) h
  · intro h
    simp only [replacementPairs, List.map_cons, List.map_nil, List.mem_cons,
      List.not_mem_nil, or_false, not_or] at h
    obtain ⟨h1, h2, h3, h4, h5, h6, h7, h8, h9, h10⟩ := h
    simp [replaceChar, h1, h2, h3, h4, h5, h6, h7, h8, h9, h10]
  · rw [encodeTextsAndPointers_eq]
    simp only [blockOf, characterReplacer, List.map_map]
    refine congrArg List.flatten (List.map_congr_left fun a _ => ?_)
    simp [Function.comp, encodeLine_eq_utf8Encode]

/-- C8 witness: '?' is replaced by '#' (emitted as the single byte 35), 'A'
passes through unchanged, and the encoded block of the replaced record
"Hi!" is the UTF-8 encoding of its replaced characters. -/
theorem c8_substitution_witness :
    (replaceChar '?' = '#' ∧ utf8EncodeChar '#' = [('#' : Char).toNat]) ∧
      replaceChar 'A' = 'A' ∧
      (encodeTextsAndPointers (characterReplacer [['H', 'i', '!']]) 0 0).1 =
        ([['H', 'i', '!']].map (fun l => utf8Encode (l.map replaceChar))).flatten :=
  ⟨(c8_substitution [['H', 'i', '!']] 0 0 '?' '#').1 (by decide),
   (c8_substitution [['H', 'i', '!']] 0 0 'A' 'A').2.1 (by decide),
   (c8_substitution [['H', 'i', '!']] 0 0 'A' 'A').2.2⟩

/-- C9: character replacement runs on the whole line before the
content/terminator split, so a record whose final (terminator) character is
the mapped character '?' is emitted with its terminator as the replacement
byte 35 ('#'), not as '?'. -/
theorem c9_terminator_replaced (l : List Char) (base dist : Int) :
    (encodeTextsAndPointers (characterReplacer [l ++ ['?']]) base dist).1 =
      utf8Encode (l.map replaceChar) ++ [35] := by
  rw [encodeTextsAndPointers_eq]
  simp only [blockOf, characterReplacer, List.map_cons, List.map_nil,
    List.flatten_cons, List.flatten_nil, List.append_nil,
    encodeLine_eq_utf8Encode, List.map_append]
  rw [utf8Encode_append]
  rfl

/-- C10: for an input with zero text records, `encodeTextsAndPointers`
returns the empty encoded block, a total byte count of 0 and an empty
pointer byte sequence (the seeded base-offset pointer is popped), with no
error — the function is total. -/
theorem c10_no_records (base dist : Int) :
    encodeTextsAndPointers [] base dist = ([], 0, []) := rfl

end Inserter
